import Mathlib

/-!
Shallow embedding of the QC-Frontend liquidity / staking hooks.

JavaScript numbers are idealised as exact rationals; NaN is modelled as
the value none of Option Rat.  BigInt values are modelled as Int (or Nat
where the source value is known non-negative).  Asynchronous effects
(RPC calls, wallet submissions) are modelled by passing their results in
explicitly, and fallible code returns Except or Option.
-/

namespace QC

deriving instance DecidableEq for Except

/-! ## JavaScript primitives -/

/-- Numeric value of a decimal digit character. -/
def digitVal (c : Char) : Nat := c.toNat - 48

/-- Value of a list of decimal digit characters, most significant first. -/
def digitsToNat (ds : List Char) : Nat :=
  ds.foldl (fun a c => a * 10 + digitVal c) 0

/-- JS comparison x <= y where x may be NaN (none); NaN comparisons are false. -/
def jsLe (x : Option Rat) (y : Rat) : Bool :=
  match x with
  | none => false
  | some q => decide (q ≤ y)

/-- JS comparison x < y where x may be NaN (none); NaN comparisons are false. -/
def jsLt (x : Option Rat) (y : Rat) : Bool :=
  match x with
  | none => false
  | some q => decide (q < y)

/-- JS comparison x > y where x may be NaN (none); NaN comparisons are false. -/
def jsGt (x : Option Rat) (y : Rat) : Bool :=
  match x with
  | none => false
  | some q => decide (y < q)

/-- JS idiom parseFloat(s) || 0 : a NaN parse collapses to 0. -/
def jsOr0 (x : Option Rat) : Rat :=
  match x with
  | none => 0
  | some q => q

/-- Model of the JS builtin parseFloat: skip leading whitespace, read an
optional sign, integer digits, an optional fraction and an optional
exponent, ignoring any trailing garbage; none models NaN (no digits at
all).  Infinity literals are outside the model. -/
def isJsWhitespace (c : Char) : Bool := c = ' ' || c = '\t' || c = '\n' || c = '\r'

/-- Head character test on a char list (false when empty). -/
def headIs (x : Char) : List Char → Bool
  | c :: _ => c = x
  | [] => false

/-- Model of the JS builtin parseFloat: skip leading whitespace, read an
optional sign, integer digits, an optional fraction and an optional
exponent, ignoring any trailing garbage; none models NaN (no digits at
all).  Infinity literals are outside the model. -/
def parseFloatM (s : String) : Option Rat :=
  let cs := s.data.dropWhile isJsWhitespace
  let sgn : Int := if headIs '-' cs then -1 else 1
  let cs1 : List Char := if headIs '-' cs || headIs '+' cs then cs.tail else cs
  let ip := cs1.takeWhile Char.isDigit
  let cs2 := cs1.dropWhile Char.isDigit
  let fp : List Char := if headIs '.' cs2 then cs2.tail.takeWhile Char.isDigit else []
  let cs3 : List Char := if headIs '.' cs2 then cs2.tail.dropWhile Char.isDigit else cs2
  if ip.isEmpty ∧ fp.isEmpty then none
  else
    let e : Int :=
      if headIs 'e' cs3 || headIs 'E' cs3 then
        let r := cs3.tail
        let esgn : Int := if headIs '-' r then -1 else 1
        let r1 : List Char := if headIs '-' r || headIs '+' r then r.tail else r
        let ed := r1.takeWhile Char.isDigit
        if ed.isEmpty then 0 else esgn * (digitsToNat ed : Int)
      else 0
    -- the value sgn * (ip + fp / 10 ^ len fp) * 10 ^ e, assembled as a
    -- single fraction so that it evaluates by kernel reduction
    let numer : Int := sgn * ((digitsToNat ip * 10 ^ fp.length + digitsToNat fp : Nat) : Int)
    some (if 0 ≤ e then mkRat (numer * ((10 ^ e.toNat : Nat) : Int)) (10 ^ fp.length)
      else mkRat numer (10 ^ fp.length * 10 ^ (-e).toNat))

/-- Drop the trailing zero digits of a fraction, as viem does before
deciding whether rounding is needed. -/
def stripTrailingZeros (f : List Char) : List Char :=
  (f.reverse.dropWhile (fun c => c = '0')).reverse

/-- Model of viem parseUnits(value, decimals): the string must match the
regex (-?)[0-9]*[.]?[0-9]* ; the result is the signed integer of base
units, rounding the fraction half-up (on the magnitude) when it is longer
than the requested number of decimals.  none models the
InvalidDecimalNumberError throw. -/
def parseUnits (s : String) (decimals : Nat) : Option Int :=
  let neg : Bool := headIs '-' s.data
  let body : List Char := if neg then s.data.tail else s.data
  let intPart := body.takeWhile Char.isDigit
  let rest := body.dropWhile Char.isDigit
  let fracOk : Option (List Char) :=
    match rest with
    | [] => some []
    | r0 :: rtl =>
      if r0 = '.' then (if rtl.all Char.isDigit then some rtl else none) else none
  match fracOk with
  | none => none
  | some frac0 =>
    let frac := stripTrailingZeros frac0
    let i := digitsToNat intPart
    let mag : Nat :=
      if frac.length ≤ decimals then
        i * 10 ^ decimals + digitsToNat frac * 10 ^ (decimals - frac.length)
      else
        let e := frac.length - decimals
        i * 10 ^ decimals + (digitsToNat frac + 5 * 10 ^ (e - 1)) / 10 ^ e
    some (if neg then -(mag : Int) else (mag : Int))

/-- JS BigInt division: truncation toward zero. -/
def bigintDiv (a b : Int) : Int :=
  a.sign * b.sign * ((a.natAbs / b.natAbs : Nat) : Int)

/-- JS String.prototype.toLowerCase restricted to ASCII (addresses). -/
def jsToLowerCase (s : String) : String :=
  String.mk (s.data.map Char.toLower)

/-- Lexicographic comparison of char lists by code unit, as the default
Array.prototype.sort comparator orders strings. -/
def charListLe : List Char → List Char → Bool
  | [], _ => true
  | _ :: _, [] => false
  | a :: as, b :: bs =>
    if a.toNat < b.toNat then true
    else if b.toNat < a.toNat then false
    else charListLe as bs

/-- String order used by the default JS sort on the two pool addresses. -/
def strLe (s t : String) : Bool := charListLe s.data t.data

/-- Sorting a two-element array with the default JS comparator. -/
def sortPair (a b : String) : String × String :=
  if strLe a b then (a, b) else (b, a)

/-! ## Pool ratio model (hooks/usePoolRatio.ts) -/

/-- Wrapped native token address, from config/contracts.ts (CONTRACTS.WMON). -/
def WMON : String := "0x3bd359C1119dA7Da1D913D1C4D2B7c461115433A"

/-- Sentinel address for the native token.  The token list module
(config/tokens.ts) is not part of the sources at hand; the concrete value
of the sentinel is immaterial to every claim, which only compares
addresses against it. -/
def NATIVE_ADDRESS : String := "0x0000000000000000000000000000000000000000"

/-- Token as used by the hooks: address, decimals, native flag. -/
structure Token where
  address : String
  decimals : Nat
  isNative : Bool
deriving DecidableEq

/-- Pair reserves as returned (as strings) by the subgraph. -/
structure PoolReserves where
  reserve0 : String
  reserve1 : String
deriving DecidableEq

/-- getActualAddress from usePoolRatio: WMON for the native token,
otherwise the token address, lowercased. -/
def getActualAddress (t : Token) : String :=
  if t.address = NATIVE_ADDRESS ∨ t.isNative then jsToLowerCase WMON
  else jsToLowerCase t.address

/-- First element of [addressA, addressB].sort(). -/
def token0Addr (tA tB : Token) : String :=
  (sortPair (getActualAddress tA) (getActualAddress tB)).1

/-- Second element of [addressA, addressB].sort(). -/
def token1Addr (tA tB : Token) : String :=
  (sortPair (getActualAddress tA) (getActualAddress tB)).2

/-- isTokenAFirst state: addressA === token0Addr. -/
def isTokenAFirst (tA tB : Token) : Bool :=
  getActualAddress tA = token0Addr tA tB

/-- Reserve string attributed to tokenA (reserve0/reserve1 by sort order,
the string "0" when no pool was fetched). -/
def reserveA (tA tB : Token) (fetched : Option PoolReserves) : String :=
  match fetched with
  | some r => if isTokenAFirst tA tB then r.reserve0 else r.reserve1
  | none => "0"

/-- Reserve string attributed to tokenB. -/
def reserveB (tA tB : Token) (fetched : Option PoolReserves) : String :=
  match fetched with
  | some r => if isTokenAFirst tA tB then r.reserve1 else r.reserve0
  | none => "0"

/-- reserveANum = parseFloat(reserveA) || 0. -/
def reserveANum (tA tB : Token) (fetched : Option PoolReserves) : Rat :=
  jsOr0 (parseFloatM (reserveA tA tB fetched))

/-- reserveBNum = parseFloat(reserveB) || 0. -/
def reserveBNum (tA tB : Token) (fetched : Option PoolReserves) : Rat :=
  jsOr0 (parseFloatM (reserveB tA tB fetched))

/-- ratio (tokenB per tokenA): reserveB / reserveA when reserveA is
positive, else 1. -/
def ratioOf (tA tB : Token) (fetched : Option PoolReserves) : Rat :=
  if 0 < reserveANum tA tB fetched
  then reserveBNum tA tB fetched / reserveANum tA tB fetched
  else 1

/-- reverseRatio (tokenA per tokenB): reserveA / reserveB when reserveB is
positive, else 1. -/
def reverseRatioOf (tA tB : Token) (fetched : Option PoolReserves) : Rat :=
  if 0 < reserveBNum tA tB fetched
  then reserveANum tA tB fetched / reserveBNum tA tB fetched
  else 1

/-- Result of the calculators: either the empty string, the input string
echoed back, or a number rendered by toExponential / toFixed with the
given digit count (the numeric argument of the builtin is kept
symbolically; none models NaN). -/
inductive DisplayAmount
  | empty
  | echo (s : String)
  | exponential (digits : Nat) (v : Option Rat)
  | fixed (digits : Nat) (v : Option Rat)
deriving DecidableEq

/-- calculateAmountB from usePoolRatio. -/
def calculateAmountB (tA tB : Token) (fetched : Option PoolReserves)
    (amountA : String) : DisplayAmount :=
  let pf := parseFloatM amountA
  if amountA = "" ∨ jsLe pf 0 then .empty
  else if fetched.isNone ∨ reserveANum tA tB fetched = 0 then .echo amountA
  else
    let calculated : Option Rat := pf.map (fun numA => numA * ratioOf tA tB fetched)
    if jsLt calculated (1 / 1000000) then .exponential 4 calculated
    else if jsLt calculated 1 then .fixed 8 calculated
    else if jsLt calculated 1000 then .fixed 6 calculated
    else .fixed 4 calculated

/-- calculateAmountA from usePoolRatio. -/
def calculateAmountA (tA tB : Token) (fetched : Option PoolReserves)
    (amountB : String) : DisplayAmount :=
  let pf := parseFloatM amountB
  if amountB = "" ∨ jsLe pf 0 then .empty
  else if fetched.isNone ∨ reserveBNum tA tB fetched = 0 then .echo amountB
  else
    let calculated : Option Rat := pf.map (fun numB => numB * reverseRatioOf tA tB fetched)
    if jsLt calculated (1 / 1000000) then .exponential 4 calculated
    else if jsLt calculated 1 then .fixed 8 calculated
    else if jsLt calculated 1000 then .fixed 6 calculated
    else .fixed 4 calculated

/-- Display rounding described by the claims: exponential notation with 4
digits below 1e-6, otherwise 8, 6 or 4 fractional digits by magnitude. -/
def displaySpec (v : Rat) : DisplayAmount :=
  if v < 1 / 1000000 then .exponential 4 (some v)
  else if v < 1 then .fixed 8 (some v)
  else if v < 1000 then .fixed 6 (some v)
  else .fixed 4 (some v)

/-! ## Approval gate (hooks/useApproval.ts, useApproval) -/

/-- needsApproval of useApproval.  tokenAddress none models undefined; the
allowance is none while unfetched.  parseUnits throwing (only reachable
when parseFloat was positive but the string is not a plain decimal)
surfaces as Except.error, as the render would crash. -/
def useApprovalNeeds (tokenAddress : Option String) (allowance : Option Nat)
    (amount : String) (decimals : Nat) : Except String Bool :=
  let isNative : Bool := tokenAddress = some NATIVE_ADDRESS ∨ tokenAddress = none
  let amountBigInt : Except String Int :=
    if amount ≠ "" ∧ jsGt (parseFloatM amount) 0 then
      match parseUnits amount decimals with
      | some v => .ok v
      | none => .error "Number is not in a valid decimal format."
    else .ok 0
  match amountBigInt with
  | .error e => .error e
  | .ok v =>
    let currentAllowance : Int := (allowance.getD 0 : Nat)
    .ok (!isNative && decide (0 < v) && decide (currentAllowance < v))

/-! ## Staking (hooks/useStake.ts) -/

/-- Per-attempt chain environment: the pending-block transaction count,
the gas estimate (none when estimateContractGas throws) and the current
gas price, each sampled afresh at that attempt. -/
structure AttemptEnv where
  pendingNonce : Nat
  gasEstimate : Option Nat
  gasPrice : Nat
deriving DecidableEq

/-- Outcome of one submission attempt: the transaction confirmed, it was
not confirmed before the polling timeout, or the submission rejected with
an error message. -/
inductive SendOutcome
  | confirmed (hash : String)
  | notConfirmed
  | threw (msg : String)
deriving DecidableEq

/-- Fields of a writeContract request the claims are about. -/
structure TxRequest where
  nonce : Nat
  gas : Nat
  gasPrice : Nat
deriving DecidableEq

/-- TxResult as returned by stake and unstake. -/
structure TxResult where
  success : Bool
  hash : Option String
  error : Option String
deriving DecidableEq

/-- A run of the submitter: its result, the submission requests it made
in order, and the backoff waits (ms) it performed in order. -/
structure StakeRun where
  result : TxResult
  requests : List TxRequest
  waits : List Nat
deriving DecidableEq

/-- estimateGasWithBuffer: 80 percent buffer on a successful estimate, a
flat 500000 when estimation throws.  (The early return for a missing
client also yields 500000 and is unreachable once the submitter has
checked the connection.) -/
def estimateGasWithBuffer (gasEstimate : Option Nat) : Nat :=
  match gasEstimate with
  | some estimated => estimated * 180 / 100
  | none => 500000

/-- Occurrence of pat as a contiguous sublist, checked at every suffix. -/
def containsSubChars (pat : List Char) : List Char → Bool
  | [] => pat.isEmpty
  | c :: rest => pat.isPrefixOf (c :: rest) || containsSubChars pat rest

/-- JS String.prototype.includes. -/
def includesSub (s pat : String) : Bool := containsSubChars pat.data s.data

/-- The dropped / replaced / nonce test applied to a failure message. -/
def retryableError (msg : String) : Bool :=
  includesSub msg "dropped" || includesSub msg "replaced" || includesSub msg "nonce"

/-- The request built by one attempt: fresh pending nonce, buffered gas,
gas price with a 30 percent premium (BigInt arithmetic on Nat). -/
def mkRequest (env : AttemptEnv) : TxRequest :=
  ⟨env.pendingNonce, estimateGasWithBuffer env.gasEstimate, env.gasPrice * 130 / 100⟩

/-- Outcomes after which the loop proceeds to another attempt. -/
def continuesOutcome (o : SendOutcome) : Bool :=
  match o with
  | .confirmed _ => false
  | .notConfirmed => true
  | .threw msg => retryableError msg

/-- Outcomes that trigger a backoff wait: a throw with a retryable
message. -/
def isRetryThrow (o : SendOutcome) : Bool :=
  match o with
  | .threw msg => retryableError msg
  | _ => false

/-- The retry loop shared by stake and unstake: fuel is the number of
attempts still allowed, idx the index of the next attempt. -/
def stakeAttemptLoop (envs : Nat → AttemptEnv) (outs : Nat → SendOutcome) :
    Nat → Nat → Nat → String → StakeRun
  | 0, _, _, lastError => ⟨⟨false, none, some lastError⟩, [], []⟩
  | fuel + 1, idx, backoffMs, _ =>
    let req := mkRequest (envs idx)
    match outs idx with
    | .confirmed h => ⟨⟨true, some h, none⟩, [req], []⟩
    | .notConfirmed =>
      let r := stakeAttemptLoop envs outs fuel (idx + 1) backoffMs
        "Transaction not confirmed in time"
      ⟨r.result, req :: r.requests, r.waits⟩
    | .threw msg =>
      if retryableError msg then
        let r := stakeAttemptLoop envs outs fuel (idx + 1) (backoffMs * 2) msg
        ⟨r.result, req :: r.requests, backoffMs :: r.waits⟩
      else ⟨⟨false, none, some msg⟩, [req], []⟩

/-- Caller-side state of the stake hook at the time stake is invoked. -/
structure StakeCtx where
  connected : Bool
  amount : String
  poolVerified : Bool
  verifySucceeds : Bool
  poolErrorState : Option String
  lpBalance : Option Nat
  allowance : Option Nat
deriving DecidableEq

/-- The balance guard: lpBalance is truthy (fetched and nonzero) and the
amount exceeds it. -/
def balanceBlocks (lpBalance : Option Nat) (amountWei : Int) : Bool :=
  match lpBalance with
  | some b => b != 0 && decide ((b : Int) < amountWei)
  | none => false

/-- The allowance guard: allowance falsy (unfetched or zero) or below the
amount. -/
def allowanceBlocks (allowance : Option Nat) (amountWei : Int) : Bool :=
  match allowance with
  | some a => a == 0 || decide ((a : Int) < amountWei)
  | none => true

/-- stake(amount, retries).  Early returns perform no submission; the
uncaught parseUnits throw is an Except.error. -/
def stake (ctx : StakeCtx) (retries : Nat) (envs : Nat → AttemptEnv)
    (outs : Nat → SendOutcome) : Except String StakeRun :=
  if ¬ctx.connected then .ok ⟨⟨false, none, some "Wallet not connected"⟩, [], []⟩
  else if ctx.amount = "" ∨ jsLe (parseFloatM ctx.amount) 0 then
    .ok ⟨⟨false, none, some "Invalid amount"⟩, [], []⟩
  else if ¬ctx.poolVerified ∧ ¬ctx.verifySucceeds then
    .ok ⟨⟨false, none, some (ctx.poolErrorState.getD "Pool verification failed")⟩, [], []⟩
  else
    match parseUnits ctx.amount 18 with
    | none => .error "Number is not in a valid decimal format."
    | some amountWei =>
      if balanceBlocks ctx.lpBalance amountWei then
        .ok ⟨⟨false, none, some "Insufficient LP balance"⟩, [], []⟩
      else if allowanceBlocks ctx.allowance amountWei then
        .ok ⟨⟨false, none, some "Please approve LP tokens first"⟩, [], []⟩
      else .ok (stakeAttemptLoop envs outs retries 0 3000 "")

/-- unstake(amount, retries): no verification, balance or allowance
guards, then the same loop. -/
def unstake (connected : Bool) (amount : String) (retries : Nat)
    (envs : Nat → AttemptEnv) (outs : Nat → SendOutcome) : Except String StakeRun :=
  if ¬connected then .ok ⟨⟨false, none, some "Wallet not connected"⟩, [], []⟩
  else if amount = "" ∨ jsLe (parseFloatM amount) 0 then
    .ok ⟨⟨false, none, some "Invalid amount"⟩, [], []⟩
  else
    match parseUnits amount 18 with
    | none => .error "Number is not in a valid decimal format."
    | some _ => .ok (stakeAttemptLoop envs outs retries 0 3000 "")

/-- needsApproval of useStake: true when the amount string or the
allowance is falsy or parsing throws, otherwise allowance < amountWei. -/
def needsApprovalStake (allowance : Option Nat) (amount : String) : Bool :=
  if amount == "" || (match allowance with | some a => a == 0 | none => true) then true
  else
    match parseUnits amount 18 with
    | none => true
    | some amountWei => decide (((allowance.getD 0 : Nat) : Int) < amountWei)

/-! ## Liquidity submission (hooks/useAddLiquidity.ts, useRemoveLiquidity.ts) -/

/-- Argument tuples of the four router functions the hooks submit.  The
value field of the ETH variants is the attached native amount. -/
inductive RouterArgs
  | addLiquidityETH (token : String) (tokenAmount minToken minETH : Int)
      (toAddr : String) (deadline : Nat) (value : Int)
  | addLiquidityERC20 (tokenA tokenB : String) (amountA amountB minA minB : Int)
      (toAddr : String) (deadline : Nat)
  | removeLiquidityETH (token : String) (lp minToken minETH : Int)
      (toAddr : String) (deadline : Nat)
  | removeLiquidityERC20 (token0 token1 : String) (lp min0 min1 : Int)
      (toAddr : String) (deadline : Nat)
deriving DecidableEq

/-- The deadline argument of a router call. -/
def RouterArgs.deadlineOf : RouterArgs → Nat
  | .addLiquidityETH _ _ _ _ _ d _ => d
  | .addLiquidityERC20 _ _ _ _ _ _ _ d => d
  | .removeLiquidityETH _ _ _ _ _ d => d
  | .removeLiquidityERC20 _ _ _ _ _ _ d => d

/-- The (minimum, desired) pairs of an add-liquidity call. -/
def RouterArgs.minPairs : RouterArgs → List (Int × Int)
  | .addLiquidityETH _ tokenAmount minToken minETH _ _ value =>
    [(minToken, tokenAmount), (minETH, value)]
  | .addLiquidityERC20 _ _ amountA amountB minA minB _ _ =>
    [(minA, amountA), (minB, amountB)]
  | .removeLiquidityETH _ _ minToken minETH _ _ => [(minToken, 0), (minETH, 0)]
  | .removeLiquidityERC20 _ _ _ min0 min1 _ _ => [(min0, 0), (min1, 0)]

/-- The minimum-output arguments of a remove-liquidity call, in argument
order. -/
def RouterArgs.routerMins : RouterArgs → List Int
  | .addLiquidityETH _ _ minToken minETH _ _ _ => [minToken, minETH]
  | .addLiquidityERC20 _ _ _ _ minA minB _ _ => [minA, minB]
  | .removeLiquidityETH _ _ minToken minETH _ _ => [minToken, minETH]
  | .removeLiquidityERC20 _ _ _ min0 min1 _ _ => [min0, min1]

/-- One writeContract submission to the router: arguments plus the gas
limit (none in the estimation-failed fallback, which resubmits the same
arguments without a gas field). -/
structure RouterCall where
  args : RouterArgs
  gas : Option Nat
deriving DecidableEq

/-- addLiquidity from useAddLiquidity.  nowMs is Date.now() at submission
time; gasEstimate the result of estimateContractGas (none = throw).
Errors model the thrown exceptions (invalid input, parseUnits). -/
def addLiquidity (tA tB : Token) (slippage : Nat) (connected : Bool)
    (userAddress : String) (amountA amountB : String) (nowMs : Nat)
    (gasEstimate : Option Nat) : Except String RouterCall :=
  if ¬connected then .error "Wallet not connected"
  else if amountA = "" ∨ amountB = "" ∨ jsLe (parseFloatM amountA) 0 ∨
      jsLe (parseFloatM amountB) 0 then .error "Invalid amounts"
  else
    match parseUnits amountA tA.decimals with
    | none => .error "Number is not in a valid decimal format."
    | some amountAWei =>
      match parseUnits amountB tB.decimals with
      | none => .error "Number is not in a valid decimal format."
      | some amountBWei =>
        let deadline := nowMs / 1000 + 1200
        let slippageMultiplier : Int := 100 - (slippage : Int)
        let isTokenANative : Bool := tA.address = NATIVE_ADDRESS ∨ tA.isNative
        let isTokenBNative : Bool := tB.address = NATIVE_ADDRESS ∨ tB.isNative
        let gas := gasEstimate.map (fun g => g * 120 / 100)
        if isTokenANative || isTokenBNative then
          let nativeAmount := if isTokenANative then amountAWei else amountBWei
          let tokenAmount := if isTokenANative then amountBWei else amountAWei
          let tokenAddress := if isTokenANative then tB.address else tA.address
          let minToken := bigintDiv (tokenAmount * slippageMultiplier) 100
          let minETH := bigintDiv (nativeAmount * slippageMultiplier) 100
          .ok ⟨.addLiquidityETH tokenAddress tokenAmount minToken minETH
            userAddress deadline nativeAmount, gas⟩
        else
          let minAmountA := bigintDiv (amountAWei * slippageMultiplier) 100
          let minAmountB := bigintDiv (amountBWei * slippageMultiplier) 100
          .ok ⟨.addLiquidityERC20 tA.address tB.address amountAWei amountBWei
            minAmountA minAmountB userAddress deadline, gas⟩

/-- removeLiquidity from useRemoveLiquidity. -/
def removeLiquidity (slippage : Nat) (connected : Bool) (userAddress : String)
    (lpAmount : Int) (token0Address token1Address : String)
    (minAmount0 minAmount1 : Int) (hasWMON : Bool) (nowMs : Nat)
    (gasEstimate : Option Nat) : Except String RouterCall :=
  if ¬connected then .error "Wallet not connected"
  else if lpAmount ≤ 0 then .error "Invalid LP amount"
  else
    let deadline := nowMs / 1000 + 1200
    let slippageMultiplier : Int := 100 - (slippage : Int)
    let minOut0 := bigintDiv (minAmount0 * slippageMultiplier) 100
    let minOut1 := bigintDiv (minAmount1 * slippageMultiplier) 100
    let gas := gasEstimate.map (fun g => g * 120 / 100)
    if hasWMON then
      let isToken0WMON : Bool := jsToLowerCase token0Address = jsToLowerCase WMON
      let tokenAddress := if isToken0WMON then token1Address else token0Address
      let minTokenAmount := if isToken0WMON then minOut1 else minOut0
      let minETHAmount := if isToken0WMON then minOut0 else minOut1
      .ok ⟨.removeLiquidityETH tokenAddress lpAmount minTokenAmount minETHAmount
        userAddress deadline, gas⟩
    else
      .ok ⟨.removeLiquidityERC20 token0Address token1Address lpAmount minOut0
        minOut1 userAddress deadline, gas⟩

/-! ## Helper lemmas -/

theorem parseFloatM_empty : parseFloatM "" = none := rfl

theorem parseFloatM_ne_empty {s : String} {q : Rat} (h : parseFloatM s = some q) :
    s ≠ "" := by
  intro he
  rw [he, parseFloatM_empty] at h
  exact Option.noConfusion h

theorem charListLe_total (l₁ l₂ : List Char) :
    charListLe l₁ l₂ = true ∨ charListLe l₂ l₁ = true := by
  induction l₁ generalizing l₂ with
  | nil => exact Or.inl rfl
  | cons a as ih =>
    cases l₂ with
    | nil => exact Or.inr rfl
    | cons b bs =>
      by_cases h1 : a.toNat < b.toNat
      · exact Or.inl (by simp [charListLe, h1])
      · by_cases h2 : b.toNat < a.toNat
        · exact Or.inr (by simp [charListLe, h2])
        · rcases ih bs with h | h
          · exact Or.inl (by simp [charListLe, h1, h2, h])
          · exact Or.inr (by simp [charListLe, h1, h2, h])

theorem strLe_total (s t : String) : strLe s t = true ∨ strLe t s = true :=
  charListLe_total s.data t.data

theorem range_map_cons {α : Type} (f : Nat → α) (n : Nat) :
    f 0 :: (List.range n).map (fun i => f (i + 1)) = (List.range (n + 1)).map f := by
  rw [List.range_succ_eq_map]
  simp [Function.comp_def]

theorem stakeAttemptLoop_length_le (envs : Nat → AttemptEnv) (outs : Nat → SendOutcome) :
    ∀ (fuel idx backoffMs : Nat) (lastError : String),
      (stakeAttemptLoop envs outs fuel idx backoffMs lastError).requests.length ≤ fuel := by
  intro fuel
  induction fuel with
  | zero => intro idx b e; simp [stakeAttemptLoop]
  | succ n ih =>
    intro idx b e
    cases houts : outs idx with
    | confirmed h => simp [stakeAttemptLoop, houts]
    | notConfirmed =>
      simp only [stakeAttemptLoop, houts]
      exact Nat.succ_le_succ (ih (idx + 1) b _)
    | threw msg =>
      by_cases hr : retryableError msg = true
      · simp only [stakeAttemptLoop, houts, hr, if_true]
        exact Nat.succ_le_succ (ih (idx + 1) (b * 2) msg)
      · rw [Bool.not_eq_true] at hr
        simp [stakeAttemptLoop, houts, hr]

theorem stakeAttemptLoop_requests (envs : Nat → AttemptEnv) (outs : Nat → SendOutcome) :
    ∀ (fuel idx backoffMs : Nat) (lastError : String),
      (stakeAttemptLoop envs outs fuel idx backoffMs lastError).requests =
        (List.range
          (stakeAttemptLoop envs outs fuel idx backoffMs lastError).requests.length).map
          (fun i => mkRequest (envs (idx + i))) := by
  intro fuel
  induction fuel with
  | zero => intro idx b e; simp [stakeAttemptLoop]
  | succ n ih =>
    intro idx b e
    have step : ∀ (r : StakeRun), r.requests =
        (List.range r.requests.length).map (fun i => mkRequest (envs (idx + 1 + i))) →
        mkRequest (envs idx) :: r.requests =
          (List.range (r.requests.length + 1)).map (fun i => mkRequest (envs (idx + i))) := by
      intro r hr
      rw [← range_map_cons (fun i => mkRequest (envs (idx + i))) r.requests.length,
        Nat.add_zero]
      congr 1
      conv_lhs => rw [hr]
      exact List.map_congr_left fun a _ => by rw [Nat.add_assoc, Nat.add_comm 1 a]
    cases houts : outs idx with
    | confirmed h =>
      simp [stakeAttemptLoop, houts, List.range_succ]
    | notConfirmed =>
      simp only [stakeAttemptLoop, houts]
      exact step _ (ih (idx + 1) b _)
    | threw msg =>
      by_cases hr : retryableError msg = true
      · simp only [stakeAttemptLoop, houts, hr, if_true]
        exact step _ (ih (idx + 1) (b * 2) msg)
      · rw [Bool.not_eq_true] at hr
        simp [stakeAttemptLoop, houts, hr, List.range_succ]

theorem stakeAttemptLoop_waits (envs : Nat → AttemptEnv) (outs : Nat → SendOutcome) :
    ∀ (fuel idx backoffMs : Nat) (lastError : String),
      (stakeAttemptLoop envs outs fuel idx backoffMs lastError).waits =
        (List.range
          (stakeAttemptLoop envs outs fuel idx backoffMs lastError).waits.length).map
          (fun i => backoffMs * 2 ^ i) := by
  intro fuel
  induction fuel with
  | zero => intro idx b e; simp [stakeAttemptLoop]
  | succ n ih =>
    intro idx b e
    cases houts : outs idx with
    | confirmed h => simp [stakeAttemptLoop, houts]
    | notConfirmed =>
      simp only [stakeAttemptLoop, houts]
      exact ih (idx + 1) b _
    | threw msg =>
      by_cases hr : retryableError msg = true
      · simp only [stakeAttemptLoop, houts, hr, if_true]
        rw [List.length_cons, ← range_map_cons (fun i => b * 2 ^ i) _]
        congr 1
        · simp
        · conv_lhs => rw [ih (idx + 1) (b * 2) msg]
          exact List.map_congr_left fun a _ => by rw [pow_succ]; ring
      · rw [Bool.not_eq_true] at hr
        simp [stakeAttemptLoop, houts, hr]

theorem stakeAttemptLoop_nonretry (envs : Nat → AttemptEnv) (outs : Nat → SendOutcome) :
    ∀ (k fuel idx backoffMs : Nat) (lastError msg : String),
      k < fuel → outs (idx + k) = .threw msg → retryableError msg = false →
      (∀ j, j < k → continuesOutcome (outs (idx + j)) = true) →
      (stakeAttemptLoop envs outs fuel idx backoffMs lastError).result =
        ⟨false, none, some msg⟩ ∧
      (stakeAttemptLoop envs outs fuel idx backoffMs lastError).requests.length = k + 1 := by
  intro k
  induction k with
  | zero =>
    intro fuel idx b e msg hk hout hnr _
    cases fuel with
    | zero => omega
    | succ n =>
      rw [Nat.add_zero] at hout
      simp [stakeAttemptLoop, hout, hnr]
  | succ k ih =>
    intro fuel idx b e msg hk hout hnr hcont
    cases fuel with
    | zero => omega
    | succ n =>
      have hcont0 := hcont 0 (Nat.succ_pos k)
      rw [Nat.add_zero] at hcont0
      have hshift : outs (idx + 1 + k) = .threw msg := by
        have harith : idx + (k + 1) = idx + 1 + k := by omega
        rwa [harith] at hout
      have hconts : ∀ j, j < k → continuesOutcome (outs (idx + 1 + j)) = true := by
        intro j hj
        have h2 := hcont (j + 1) (by omega)
        have harith : idx + (j + 1) = idx + 1 + j := by omega
        rwa [harith] at h2
      cases houts : outs idx with
      | confirmed h => rw [houts] at hcont0; simp [continuesOutcome] at hcont0
      | notConfirmed =>
        have hrec := ih n (idx + 1) b "Transaction not confirmed in time" msg
          (by omega) hshift hnr hconts
        simp only [stakeAttemptLoop, houts]
        exact ⟨hrec.1, by simp [hrec.2]⟩
      | threw m =>
        rw [houts] at hcont0
        simp only [continuesOutcome] at hcont0
        have hrec := ih n (idx + 1) (b * 2) m msg (by omega) hshift hnr hconts
        simp only [stakeAttemptLoop, houts, hcont0, if_true]
        exact ⟨hrec.1, by simp [hrec.2]⟩

theorem stakeAttemptLoop_waits_count (envs : Nat → AttemptEnv) (outs : Nat → SendOutcome) :
    ∀ (fuel idx backoffMs : Nat) (lastError : String),
      (stakeAttemptLoop envs outs fuel idx backoffMs lastError).waits.length =
        ((List.range
          (stakeAttemptLoop envs outs fuel idx backoffMs lastError).requests.length).countP
          (fun i => isRetryThrow (outs (idx + i)))) := by
  intro fuel
  induction fuel with
  | zero => intro idx b e; simp [stakeAttemptLoop]
  | succ n ih =>
    intro idx b e
    have shift : ∀ m, (List.range m).countP (fun i => isRetryThrow (outs (idx + 1 + i))) =
        (List.range m).countP (fun i => isRetryThrow (outs (idx + (i + 1)))) := by
      intro m
      exact List.countP_congr fun a _ => by rw [Nat.add_assoc, Nat.add_comm 1 a]
    cases houts : outs idx with
    | confirmed h =>
      have h0 : isRetryThrow (outs idx) = false := by rw [houts]; rfl
      simp only [stakeAttemptLoop, houts, List.length_nil]
      rw [show List.range [mkRequest (envs idx)].length = [0] from rfl]
      simp [List.countP_cons, h0]
    | notConfirmed =>
      simp only [stakeAttemptLoop, houts]
      rw [ih (idx + 1) b _, List.length_cons, List.range_succ_eq_map,
        List.countP_cons, List.countP_map]
      have h0 : isRetryThrow (outs idx) = false := by rw [houts]; rfl
      simp only [Function.comp_def, Nat.succ_eq_add_one]
      rw [shift]
      simp [h0]
    | threw msg =>
      by_cases hr : retryableError msg = true
      · simp only [stakeAttemptLoop, houts, hr, if_true]
        rw [List.length_cons, ih (idx + 1) (b * 2) msg, List.length_cons,
          List.range_succ_eq_map, List.countP_cons, List.countP_map]
        have h0 : isRetryThrow (outs idx) = true := by
          rw [houts]; simpa [isRetryThrow]
        simp only [Function.comp_def, Nat.succ_eq_add_one]
        rw [shift]
        simp [h0]
      · rw [Bool.not_eq_true] at hr
        have h0 : isRetryThrow (outs idx) = false := by
          rw [houts]; simp [isRetryThrow, hr]
        simp only [stakeAttemptLoop, houts, hr, Bool.false_eq_true, if_false,
          List.length_nil]
        rw [show List.range [mkRequest (envs idx)].length = [0] from rfl]
        simp [List.countP_cons, h0]

theorem digitsToNat_nil : digitsToNat [] = 0 := rfl

theorem digitsToNat_foldl (l : List Char) (a : Nat) :
    l.foldl (fun a c => a * 10 + digitVal c) a = a * 10 ^ l.length + digitsToNat l := by
  induction l generalizing a with
  | nil => simp [digitsToNat]
  | cons c cs ih =>
    have hcons : digitsToNat (c :: cs) = digitVal c * 10 ^ cs.length + digitsToNat cs := by
      conv_lhs => rw [show digitsToNat (c :: cs) =
        List.foldl (fun a c => a * 10 + digitVal c) (0 * 10 + digitVal c) cs from rfl]
      rw [ih (0 * 10 + digitVal c)]
      norm_num
    simp only [List.foldl_cons, hcons, List.length_cons]
    rw [ih (a * 10 + digitVal c)]
    ring

theorem digitsToNat_cons (c : Char) (cs : List Char) :
    digitsToNat (c :: cs) = digitVal c * 10 ^ cs.length + digitsToNat cs := by
  conv_lhs => rw [show digitsToNat (c :: cs) =
    List.foldl (fun a c => a * 10 + digitVal c) (0 * 10 + digitVal c) cs from rfl]
  rw [digitsToNat_foldl cs (0 * 10 + digitVal c)]
  norm_num

theorem digitsToNat_append (l1 l2 : List Char) :
    digitsToNat (l1 ++ l2) = digitsToNat l1 * 10 ^ l2.length + digitsToNat l2 := by
  unfold digitsToNat
  rw [List.foldl_append]
  exact digitsToNat_foldl l2 _

theorem digitsToNat_all_zero (l : List Char) (h : ∀ c ∈ l, c = '0') :
    digitsToNat l = 0 := by
  induction l with
  | nil => rfl
  | cons c cs ih =>
    rw [digitsToNat_cons, h c (List.mem_cons_self c cs),
      ih fun x hx => h x (List.mem_cons_of_mem c hx),
      show digitVal '0' = 0 from rfl]
    simp

theorem stripTrailingZeros_decomp (f : List Char) :
    ∃ zs, f = stripTrailingZeros f ++ zs ∧ ∀ c ∈ zs, c = '0' := by
  refine ⟨(f.reverse.takeWhile (fun c => c = '0')).reverse, ?_, ?_⟩
  · unfold stripTrailingZeros
    rw [← List.reverse_append, List.takeWhile_append_dropWhile, List.reverse_reverse]
  · intro c hc
    rw [List.mem_reverse] at hc
    have := List.mem_takeWhile_imp hc
    simpa using this

theorem digitsToNat_strip (f : List Char) :
    ∃ k, digitsToNat f = digitsToNat (stripTrailingZeros f) * 10 ^ k := by
  obtain ⟨zs, hf, hz⟩ := stripTrailingZeros_decomp f
  refine ⟨zs.length, ?_⟩
  conv_lhs => rw [hf]
  rw [digitsToNat_append, digitsToNat_all_zero zs hz, Nat.add_zero]

theorem takeWhile_of_all {l : List Char} {p : Char → Bool} (h : l.all p = true) :
    l.takeWhile p = l := by
  induction l with
  | nil => rfl
  | cons c cs ih =>
    rw [List.all_cons, Bool.and_eq_true] at h
    rw [List.takeWhile_cons, if_pos h.1, ih h.2]

theorem dropWhile_of_all {l : List Char} {p : Char → Bool} (h : l.all p = true) :
    l.dropWhile p = [] := by
  induction l with
  | nil => rfl
  | cons c cs ih =>
    rw [List.all_cons, Bool.and_eq_true] at h
    rw [List.dropWhile_cons, if_pos h.1, ih h.2]

theorem mkRat_core_neg (F i L : Nat) (h : 0 < i ∨ 0 < F) :
    mkRat (-(F : Int) + -((i : Int) * 10 ^ L)) (10 ^ L) < 0 := by
  rw [Rat.mkRat_eq_div]
  apply div_neg_of_neg_of_pos
  · have h10 : (0 : Int) < 10 ^ L := by positivity
    have hN : (-(F : Int) + -((i : Int) * 10 ^ L)) < 0 := by
      rcases h with h | h
      · have h1 : (1 : Int) ≤ (i : Int) := by exact_mod_cast h
        nlinarith [Int.natCast_nonneg F]
      · have h1 : (1 : Int) ≤ (F : Int) := by exact_mod_cast h
        nlinarith [mul_nonneg (Int.natCast_nonneg i) (le_of_lt h10)]
    exact_mod_cast hN
  · have : (0 : Nat) < 10 ^ L := Nat.pos_pow_of_pos _ (by norm_num)
    exact_mod_cast this

theorem parseFloatM_of_minus (s : String) (body : List Char)
    (hsd : s.data = '-' :: body)
    (hfp : body.dropWhile Char.isDigit = [] ∨
      ∃ fr, body.dropWhile Char.isDigit = '.' :: fr ∧ fr.all Char.isDigit = true)
    (hpos : 0 < digitsToNat (body.takeWhile Char.isDigit) ∨
      0 < digitsToNat (body.dropWhile Char.isDigit).tail) :
    ∃ q, parseFloatM s = some q ∧ q < 0 := by
  have hws : ('-' :: body).dropWhile isJsWhitespace = '-' :: body := by
    rw [List.dropWhile_cons]
    simp [isJsWhitespace]
  rcases hfp with hrest | ⟨fr, hrest, hfrall⟩
  · have hp : 0 < digitsToNat (body.takeWhile Char.isDigit) := by
      rcases hpos with hp | hp
      · exact hp
      · rw [hrest] at hp
        simp [digitsToNat_nil] at hp
    have hipne : (body.takeWhile Char.isDigit).isEmpty = false := by
      cases hip : body.takeWhile Char.isDigit with
      | nil => rw [hip] at hp; simp [digitsToNat_nil] at hp
      | cons a l => rfl
    simp only [parseFloatM]
    rw [hsd, hws]
    simp only [show headIs '-' ('-' :: body) = true from rfl,
      show headIs '+' ('-' :: body) = false from rfl, Bool.true_or, if_true,
      List.tail_cons]
    rw [hrest]
    simpa [hipne, digitsToNat_nil, headIs] using hp
  · rw [hrest, List.tail_cons] at hpos
    simp only [parseFloatM]
    rw [hsd, hws]
    simp only [show headIs '-' ('-' :: body) = true from rfl,
      show headIs '+' ('-' :: body) = false from rfl, Bool.true_or, if_true,
      List.tail_cons]
    rw [hrest]
    simp only [show headIs '.' ('.' :: fr) = true from rfl, List.tail_cons,
      takeWhile_of_all hfrall, dropWhile_of_all hfrall]
    rcases hpos with hp | hp
    · have hipne : (body.takeWhile Char.isDigit).isEmpty = false := by
        cases hip : body.takeWhile Char.isDigit with
        | nil => rw [hip] at hp; simp [digitsToNat_nil] at hp
        | cons a l => rfl
      simp [headIs, digitsToNat_nil, hipne]
      exact mkRat_core_neg _ _ _ (Or.inl hp)
    · have hfrne : fr.isEmpty = false := by
        cases hf : fr with
        | nil => rw [hf] at hp; simp [digitsToNat_nil] at hp
        | cons a l => rfl
      simp [headIs, digitsToNat_nil, hfrne]
      exact mkRat_core_neg _ _ _ (Or.inr hp)

theorem mag_pos_cases (i F L d : Nat)
    (h : 0 < (if L ≤ d then i * 10 ^ d + F * 10 ^ (d - L)
      else i * 10 ^ d + (F + 5 * 10 ^ (L - d - 1)) / 10 ^ (L - d))) :
    0 < i ∨ 0 < F := by
  by_contra hcon
  push_neg at hcon
  have hi0 : i = 0 := by omega
  have hF0 : F = 0 := by omega
  subst hi0
  subst hF0
  rcases le_or_lt L d with hL | hL
  · rw [if_pos hL] at h
    simp at h
  · rw [if_neg (not_le_of_lt hL)] at h
    have he : 5 * 10 ^ (L - d - 1) < 10 ^ (L - d) := by
      calc 5 * 10 ^ (L - d - 1) < 10 * 10 ^ (L - d - 1) := by
            have hp : 0 < 10 ^ (L - d - 1) := Nat.pos_pow_of_pos _ (by norm_num)
            nlinarith
        _ = 10 ^ (L - d) := by
            rw [← pow_succ']
            congr 1
            omega
    rw [Nat.div_eq_of_lt (by simpa using he)] at h
    simp at h

theorem parseUnits_neg (s : String) (d : Nat) (v : Int)
    (h : parseUnits s d = some v) (hv : v < 0) :
    ∃ q, parseFloatM s = some q ∧ q < 0 := by
  cases hsd : s.data with
  | nil =>
    simp only [parseUnits] at h
    rw [hsd] at h
    simp [headIs, digitsToNat_nil, stripTrailingZeros] at h
    omega
  | cons c body =>
    simp only [parseUnits] at h
    rw [hsd] at h
    by_cases hc : c = '-'
    · subst hc
      simp only [show headIs '-' ('-' :: body) = true from rfl, if_true,
        List.tail_cons] at h
      cases hrest : body.dropWhile Char.isDigit with
      | nil =>
        rw [hrest] at h
        dsimp only at h
        injection h with hval
        have hmagpos : 0 < (if (stripTrailingZeros []).length ≤ d then
            digitsToNat (List.takeWhile Char.isDigit body) * 10 ^ d +
              digitsToNat (stripTrailingZeros []) * 10 ^ (d - (stripTrailingZeros []).length)
          else
            digitsToNat (List.takeWhile Char.isDigit body) * 10 ^ d +
              (digitsToNat (stripTrailingZeros []) +
                5 * 10 ^ ((stripTrailingZeros []).length - d - 1)) /
                10 ^ ((stripTrailingZeros []).length - d)) := by omega
        rcases mag_pos_cases _ _ _ _ hmagpos with hi | hF
        · exact parseFloatM_of_minus s body hsd (Or.inl hrest) (Or.inl hi)
        · rw [show stripTrailingZeros [] = [] from rfl] at hF
          simp [digitsToNat_nil] at hF
      | cons r0 rtl =>
        rw [hrest] at h
        dsimp only at h
        by_cases hdot : r0 = '.'
        · subst hdot
          rw [if_pos rfl] at h
          by_cases hall : rtl.all Char.isDigit = true
          · rw [if_pos hall] at h
            dsimp only at h
            injection h with hval
            have hmagpos : 0 < (if (stripTrailingZeros rtl).length ≤ d then
                digitsToNat (List.takeWhile Char.isDigit body) * 10 ^ d +
                  digitsToNat (stripTrailingZeros rtl) * 10 ^ (d - (stripTrailingZeros rtl).length)
              else
                digitsToNat (List.takeWhile Char.isDigit body) * 10 ^ d +
                  (digitsToNat (stripTrailingZeros rtl) +
                    5 * 10 ^ ((stripTrailingZeros rtl).length - d - 1)) /
                    10 ^ ((stripTrailingZeros rtl).length - d)) := by omega
            rcases mag_pos_cases _ _ _ _ hmagpos with hi | hF
            · exact parseFloatM_of_minus s body hsd (Or.inr ⟨rtl, hrest, hall⟩) (Or.inl hi)
            · obtain ⟨k, hk⟩ := digitsToNat_strip rtl
              have hrtl : 0 < digitsToNat rtl := by
                rw [hk]
                exact Nat.mul_pos hF (Nat.pos_pow_of_pos _ (by norm_num))
              apply parseFloatM_of_minus s body hsd (Or.inr ⟨rtl, hrest, hall⟩)
              right
              rw [hrest, List.tail_cons]
              exact hrtl
          · rw [if_neg hall] at h
            cases h
        · rw [if_neg hdot] at h
          cases h
    · have hnc : headIs '-' (c :: body) = false := by simp [headIs, hc]
      rw [hnc] at h
      simp only [Bool.false_eq_true, if_false] at h
      split at h
      · cases h
      · injection h with hval
        omega

theorem parseUnits_nonneg (s : String) (d : Nat) (v : Int)
    (h : parseUnits s d = some v) (hle : jsLe (parseFloatM s) 0 = false) : 0 ≤ v := by
  by_contra hneg
  push_neg at hneg
  obtain ⟨q, hq, hq0⟩ := parseUnits_neg s d v h hneg
  rw [hq] at hle
  simp only [jsLe, decide_eq_false_iff_not, not_le] at hle
  exact absurd hq0 (not_lt_of_gt hle)

theorem bigintDiv_natCast (m b : Nat) :
    bigintDiv (m : Int) (b : Int) = ((m / b : Nat) : Int) := by
  unfold bigintDiv
  rw [Int.natAbs_ofNat, Int.natAbs_ofNat]
  rcases Nat.eq_zero_or_pos m with hm | hm
  · subst hm
    simp
  · rcases Nat.eq_zero_or_pos b with hb | hb
    · subst hb
      simp
    · have h1 : ((m : Int)).sign = 1 := Int.sign_eq_one_of_pos (by exact_mod_cast hm)
      have h2 : ((b : Int)).sign = 1 := Int.sign_eq_one_of_pos (by exact_mod_cast hb)
      rw [h1, h2]
      simp

theorem slippage_min (x : Int) (s : Nat) (hx : 0 ≤ x) (hs : s ≤ 100) :
    bigintDiv (x * (100 - (s : Int))) 100 = x * (100 - (s : Int)) / 100 ∧
    x * (100 - (s : Int)) / 100 ≤ x := by
  obtain ⟨m, rfl⟩ := Int.eq_ofNat_of_zero_le hx
  have hcast : ((m : Int) * (100 - (s : Int))) = ((m * (100 - s) : Nat) : Int) := by
    push_cast [Nat.cast_sub hs]
    ring
  have hle : m * (100 - s) / 100 ≤ m := by
    calc m * (100 - s) / 100 ≤ m * 100 / 100 :=
          Nat.div_le_div_right (Nat.mul_le_mul_left m (by omega))
      _ = m := Nat.mul_div_cancel m (by norm_num)
  constructor
  · rw [hcast, show ((100 : Int)) = ((100 : Nat) : Int) from rfl, bigintDiv_natCast]
    exact Int.natCast_div _ _
  · rw [hcast]
    calc ((m * (100 - s) : Nat) : Int) / 100
        = ((m * (100 - s) / 100 : Nat) : Int) := by
          rw [Int.natCast_div]
          norm_num
      _ ≤ (m : Int) := by exact_mod_cast hle

theorem stake_run_cases :
    ∀ (ctx : StakeCtx) (retries : Nat) (envs : Nat → AttemptEnv)
      (outs : Nat → SendOutcome) (run : StakeRun),
      stake ctx retries envs outs = .ok run →
      (run.requests = [] ∧ run.waits = [] ∧ run.result.success = false) ∨
      run = stakeAttemptLoop envs outs retries 0 3000 "" := by
  intro ctx retries envs outs run h
  unfold stake at h
  split at h
  · injection h with hr; subst hr; exact Or.inl ⟨rfl, rfl, rfl⟩
  · split at h
    · injection h with hr; subst hr; exact Or.inl ⟨rfl, rfl, rfl⟩
    · split at h
      · injection h with hr; subst hr; exact Or.inl ⟨rfl, rfl, rfl⟩
      · split at h
        · cases h
        · split at h
          · injection h with hr; subst hr; exact Or.inl ⟨rfl, rfl, rfl⟩
          · split at h
            · injection h with hr; subst hr; exact Or.inl ⟨rfl, rfl, rfl⟩
            · injection h with hr; subst hr; exact Or.inr rfl

theorem unstake_run_cases :
    ∀ (connected : Bool) (amount : String) (retries : Nat) (envs : Nat → AttemptEnv)
      (outs : Nat → SendOutcome) (run : StakeRun),
      unstake connected amount retries envs outs = .ok run →
      (run.requests = [] ∧ run.waits = [] ∧ run.result.success = false) ∨
      run = stakeAttemptLoop envs outs retries 0 3000 "" := by
  intro connected amount retries envs outs run h
  unfold unstake at h
  split at h
  · injection h with hr; subst hr; exact Or.inl ⟨rfl, rfl, rfl⟩
  · split at h
    · injection h with hr; subst hr; exact Or.inl ⟨rfl, rfl, rfl⟩
    · split at h
      · cases h
      · injection h with hr; subst hr; exact Or.inr rfl

/-! ## Claim C10 -/

/-- C10: the stake hook needsApproval fails safe: it is true whenever the
amount string is empty, the allowance is unfetched, or the amount does
not parse as a base-unit quantity; and it is false only when a fetched
allowance is at least the successfully parsed amount. -/
theorem needsApprovalStake_fails_safe :
    (∀ (allowance : Option Nat) (amount : String),
      amount = "" ∨ allowance = none ∨ parseUnits amount 18 = none →
      needsApprovalStake allowance amount = true) ∧
    (∀ (allowance : Option Nat) (amount : String),
      needsApprovalStake allowance amount = false →
      ∃ n w, allowance = some n ∧ parseUnits amount 18 = some w ∧ w ≤ (n : Int)) := by
  constructor
  · intro allowance amount h
    unfold needsApprovalStake
    rcases h with h | h | h
    · simp [h]
    · simp [h]
    · split
      · rfl
      · simp [h]
  · intro allowance amount h
    unfold needsApprovalStake at h
    split at h
    · exact absurd h (by simp)
    · rename_i hcond
      cases hall : allowance with
      | none => rw [hall] at hcond; simp at hcond
      | some n =>
        rw [hall] at hcond h
        simp only [Bool.or_eq_true, beq_iff_eq] at hcond
        push_neg at hcond
        split at h
        · exact absurd h (by simp)
        · rename_i w hw
          refine ⟨n, w, rfl, hw, ?_⟩
          simpa [Option.getD] using of_decide_eq_false h

/-- Witness for C10 at concrete inputs. -/
theorem needsApprovalStake_fails_safe_witness :
    needsApprovalStake none "1" = true ∧
    (∃ n w, (some (10 ^ 18) : Option Nat) = some n ∧
      parseUnits "1" 18 = some w ∧ w ≤ (n : Int)) := by
  constructor
  · exact needsApprovalStake_fails_safe.1 none "1" (Or.inr (Or.inl rfl))
  · exact needsApprovalStake_fails_safe.2 (some (10 ^ 18)) "1" (by decide)

/-! ## Claim C5 -/

/-- C5: the approval gate needsApproval is true exactly when the token is
non-native, the entered amount parses to a positive value, and the live
allowance (0 when unavailable) is strictly below the amount in base
units. -/
theorem useApprovalNeeds_iff :
    ∀ (tokenAddress : Option String) (allowance : Option Nat) (amount : String)
      (decimals : Nat) (b : Bool),
      useApprovalNeeds tokenAddress allowance amount decimals = .ok b →
      (b = true ↔
        ¬(tokenAddress = some NATIVE_ADDRESS ∨ tokenAddress = none) ∧
        (∃ q, parseFloatM amount = some q ∧ 0 < q) ∧
        (∃ v, parseUnits amount decimals = some v ∧
          ((allowance.getD 0 : Nat) : Int) < v)) := by
  intro tokenAddress allowance amount decimals b h
  unfold useApprovalNeeds at h
  split at h
  · rename_i hcond
    obtain ⟨hne, hgt⟩ := hcond
    cases hq : parseFloatM amount with
    | none => rw [hq] at hgt; simp [jsGt] at hgt
    | some q =>
      rw [hq] at hgt
      have hqpos : 0 < q := by simpa [jsGt] using hgt
      split at h
      · rename_i v hv
        injection h with hb
        subst hb
        constructor
        · intro hbt
          simp only [Bool.and_eq_true, Bool.not_eq_true', decide_eq_false_iff_not,
            decide_eq_true_eq] at hbt
          exact ⟨hbt.1.1, ⟨q, rfl, hqpos⟩, ⟨v, hv, hbt.2⟩⟩
        · rintro ⟨hnat, -, ⟨v', hv', hlt⟩⟩
          rw [hv] at hv'
          injection hv' with hvv
          subst hvv
          have h0v : (0 : Int) < v := lt_of_le_of_lt (by positivity) hlt
          simp [hnat, h0v, hlt]
      · cases h
  · rename_i hcond
    injection h with hb
    subst hb
    apply iff_of_false (by simp)
    rintro ⟨hnat, ⟨q, hq, hqpos⟩, -⟩
    exact hcond ⟨parseFloatM_ne_empty hq, by simp [jsGt, hq, hqpos]⟩

/-- Witness for C5 at concrete inputs. -/
theorem useApprovalNeeds_iff_witness :
    useApprovalNeeds (some "0xabcd") (some 5) "1" 2 = .ok true ∧
    (true = true ↔
      ¬((some "0xabcd" : Option String) = some NATIVE_ADDRESS ∨
        (some "0xabcd" : Option String) = none) ∧
      (∃ q, parseFloatM "1" = some q ∧ 0 < q) ∧
      (∃ v, parseUnits "1" 2 = some v ∧
        (((some 5 : Option Nat).getD 0 : Nat) : Int) < v)) := by
  constructor
  · with_unfolding_all decide
  · exact useApprovalNeeds_iff (some "0xabcd") (some 5) "1" 2 true (by with_unfolding_all decide)

/-! ## Claim C8 -/

/-- C8: every add-liquidity and remove-liquidity submission carries a
deadline of the current UNIX time plus exactly 1200 seconds. -/
theorem liquidity_deadline :
    (∀ (tA tB : Token) (slippage : Nat) (connected : Bool)
      (userAddress amountA amountB : String) (nowMs : Nat)
      (gasEstimate : Option Nat) (call : RouterCall),
      addLiquidity tA tB slippage connected userAddress amountA amountB nowMs
        gasEstimate = .ok call →
      call.args.deadlineOf = nowMs / 1000 + 1200) ∧
    (∀ (slippage : Nat) (connected : Bool) (userAddress : String) (lpAmount : Int)
      (token0Address token1Address : String) (minAmount0 minAmount1 : Int)
      (hasWMON : Bool) (nowMs : Nat) (gasEstimate : Option Nat) (call : RouterCall),
      removeLiquidity slippage connected userAddress lpAmount token0Address
        token1Address minAmount0 minAmount1 hasWMON nowMs gasEstimate = .ok call →
      call.args.deadlineOf = nowMs / 1000 + 1200) := by
  constructor
  · intro tA tB slippage connected userAddress amountA amountB nowMs gE call h
    simp only [addLiquidity] at h
    split at h
    · cases h
    · split at h
      · cases h
      · split at h
        · cases h
        · split at h
          · cases h
          · split at h <;>
            · injection h with hc
              subst hc
              rfl
  · intro slippage connected userAddress lpAmount t0 t1 m0 m1 hasWMON nowMs gE call h
    simp only [removeLiquidity] at h
    split at h
    · cases h
    · split at h
      · cases h
      · split at h <;>
        · injection h with hc
          subst hc
          rfl

set_option maxRecDepth 2000 in
/-- Witness for C8 at concrete inputs. -/
theorem liquidity_deadline_witness :
    (∃ c, addLiquidity ⟨"0xaa", 2, false⟩ ⟨"0xbb", 2, false⟩ 10 true "0xme" "1" "2"
      5123 none = .ok c ∧ c.args.deadlineOf = 5123 / 1000 + 1200) ∧
    (∃ c, removeLiquidity 10 true "0xme" 5 "0xaa" "0xbb" 100 200 false 5123
      none = .ok c ∧ c.args.deadlineOf = 5123 / 1000 + 1200) := by
  constructor
  · have hc : addLiquidity ⟨"0xaa", 2, false⟩ ⟨"0xbb", 2, false⟩ 10 true "0xme" "1"
        "2" 5123 none =
        .ok ⟨.addLiquidityERC20 "0xaa" "0xbb" 100 200 90 180 "0xme" 1205, none⟩ := by
      with_unfolding_all decide
    exact ⟨_, hc, liquidity_deadline.1 _ _ _ _ _ _ _ _ _ _ hc⟩
  · have hc : removeLiquidity 10 true "0xme" 5 "0xaa" "0xbb" 100 200 false
        5123 none =
        .ok ⟨.removeLiquidityERC20 "0xaa" "0xbb" 5 90 180 "0xme" 1205, none⟩ := by
      with_unfolding_all decide
    exact ⟨_, hc, liquidity_deadline.2 _ _ _ _ _ _ _ _ _ _ _ _ hc⟩

/-! ## Claim C3 -/

/-- C3: the reserve fetcher sorts the two lowercased effective addresses,
token0 being the smaller; reserveA is reserve0 exactly when tokenA has the
smaller effective address; the ratio is reserveB / reserveA when reserveA
is positive and 1 when it is zero or the pool is absent, and symmetrically
for reverseRatio. -/
theorem poolRatio_ordering :
    (∀ tA tB : Token, getActualAddress tA ≠ getActualAddress tB →
      (strLe (getActualAddress tA) (getActualAddress tB) = true →
        token0Addr tA tB = getActualAddress tA ∧ isTokenAFirst tA tB = true) ∧
      (strLe (getActualAddress tA) (getActualAddress tB) = false →
        token0Addr tA tB = getActualAddress tB ∧ isTokenAFirst tA tB = false) ∧
      strLe (token0Addr tA tB) (token1Addr tA tB) = true ∧
      (∀ r : PoolReserves,
        (isTokenAFirst tA tB = true →
          reserveA tA tB (some r) = r.reserve0 ∧ reserveB tA tB (some r) = r.reserve1) ∧
        (isTokenAFirst tA tB = false →
          reserveA tA tB (some r) = r.reserve1 ∧ reserveB tA tB (some r) = r.reserve0))) ∧
    (∀ (tA tB : Token) (fetched : Option PoolReserves),
      (0 < reserveANum tA tB fetched →
        ratioOf tA tB fetched = reserveBNum tA tB fetched / reserveANum tA tB fetched) ∧
      (reserveANum tA tB fetched = 0 → ratioOf tA tB fetched = 1) ∧
      (fetched = none → ratioOf tA tB fetched = 1) ∧
      (0 < reserveBNum tA tB fetched →
        reverseRatioOf tA tB fetched =
          reserveANum tA tB fetched / reserveBNum tA tB fetched) ∧
      (reserveBNum tA tB fetched = 0 → reverseRatioOf tA tB fetched = 1) ∧
      (fetched = none → reverseRatioOf tA tB fetched = 1)) := by
  constructor
  · intro tA tB hne
    refine ⟨?_, ?_, ?_, ?_⟩
    · intro hle
      constructor
      · simp [token0Addr, sortPair, hle]
      · simp [isTokenAFirst, token0Addr, sortPair, hle]
    · intro hle
      constructor
      · simp [token0Addr, sortPair, hle]
      · simp [isTokenAFirst, token0Addr, sortPair, hle, hne]
    · by_cases hle : strLe (getActualAddress tA) (getActualAddress tB) = true
      · simp [token0Addr, token1Addr, sortPair, hle]
      · have hge := (strLe_total (getActualAddress tA) (getActualAddress tB)).resolve_left hle
        simp only [Bool.not_eq_true] at hle
        simpa [token0Addr, token1Addr, sortPair, hle] using hge
    · intro r
      constructor
      · intro hfirst
        constructor <;> simp [reserveA, reserveB, hfirst]
      · intro hfirst
        constructor <;> simp [reserveA, reserveB, hfirst]
  · intro tA tB fetched
    have h0 : jsOr0 (parseFloatM "0") = 0 := by with_unfolding_all decide
    refine ⟨?_, ?_, ?_, ?_, ?_, ?_⟩
    · intro h
      simp [ratioOf, h]
    · intro h
      simp [ratioOf, h]
    · intro h
      subst h
      simp [ratioOf, reserveANum, reserveA, h0]
    · intro h
      simp [reverseRatioOf, h]
    · intro h
      simp [reverseRatioOf, h]
    · intro h
      subst h
      simp [reverseRatioOf, reserveBNum, reserveB, h0]

/-- Witness for C3 at concrete inputs. -/
theorem poolRatio_ordering_witness :
    token0Addr ⟨"0xBB", 18, false⟩ ⟨"0xAA", 18, false⟩ = "0xaa" ∧
    isTokenAFirst ⟨"0xBB", 18, false⟩ ⟨"0xAA", 18, false⟩ = false ∧
    reserveA ⟨"0xBB", 18, false⟩ ⟨"0xAA", 18, false⟩ (some ⟨"2", "6"⟩) = "6" ∧
    ratioOf ⟨"0xBB", 18, false⟩ ⟨"0xAA", 18, false⟩ (some ⟨"2", "6"⟩) =
      reserveBNum ⟨"0xBB", 18, false⟩ ⟨"0xAA", 18, false⟩ (some ⟨"2", "6"⟩) /
      reserveANum ⟨"0xBB", 18, false⟩ ⟨"0xAA", 18, false⟩ (some ⟨"2", "6"⟩) ∧
    ratioOf ⟨"0xBB", 18, false⟩ ⟨"0xAA", 18, false⟩ none = 1 := by
  have hne : getActualAddress ⟨"0xBB", 18, false⟩ ≠ getActualAddress ⟨"0xAA", 18, false⟩ := by
    with_unfolding_all decide
  have hfalse : strLe (getActualAddress ⟨"0xBB", 18, false⟩)
      (getActualAddress ⟨"0xAA", 18, false⟩) = false := by with_unfolding_all decide
  have h1 := (poolRatio_ordering.1 ⟨"0xBB", 18, false⟩ ⟨"0xAA", 18, false⟩ hne).2.1 hfalse
  have h2 := ((poolRatio_ordering.1 ⟨"0xBB", 18, false⟩ ⟨"0xAA", 18, false⟩ hne).2.2.2
    ⟨"2", "6"⟩).2 h1.2
  have h3 := (poolRatio_ordering.2 ⟨"0xBB", 18, false⟩ ⟨"0xAA", 18, false⟩
    (some ⟨"2", "6"⟩)).1 (by with_unfolding_all decide)
  have h4 := (poolRatio_ordering.2 ⟨"0xBB", 18, false⟩ ⟨"0xAA", 18, false⟩ none).2.2.1 rfl
  refine ⟨?_, h1.2, h2.1, h3, h4⟩
  rw [h1.1]
  with_unfolding_all decide

/-! ## Claim C4 -/

/-- C4: with no pool (nothing fetched, or the dividing reserve zero) the
calculators echo a positively-parsing input unchanged (1:1 ratio), and
return the empty string on empty or non-positive input. -/
theorem calculateAmount_default :
    ∀ (tA tB : Token) (fetched : Option PoolReserves) (a : String) (q : Rat),
      (parseFloatM a = some q → 0 < q →
        fetched = none ∨ reserveANum tA tB fetched = 0 →
        calculateAmountB tA tB fetched a = .echo a) ∧
      (a = "" ∨ (parseFloatM a = some q ∧ q ≤ 0) →
        calculateAmountB tA tB fetched a = .empty) ∧
      (parseFloatM a = some q → 0 < q →
        fetched = none ∨ reserveBNum tA tB fetched = 0 →
        calculateAmountA tA tB fetched a = .echo a) ∧
      (a = "" ∨ (parseFloatM a = some q ∧ q ≤ 0) →
        calculateAmountA tA tB fetched a = .empty) := by
  intro tA tB fetched a q
  refine ⟨?_, ?_, ?_, ?_⟩
  · intro hq hpos hdef
    have hne := parseFloatM_ne_empty hq
    have hle : jsLe (parseFloatM a) 0 = false := by
      rw [hq]; simp [jsLe, not_le, hpos]
    rcases hdef with hdef | hdef
    · subst hdef
      simp [calculateAmountB, hne, hle]
    · simp [calculateAmountB, hne, hle, hdef]
  · intro h
    rcases h with h | ⟨hq, hle⟩
    · simp [calculateAmountB, h]
    · have : jsLe (parseFloatM a) 0 = true := by rw [hq]; simpa [jsLe]
      simp [calculateAmountB, this]
  · intro hq hpos hdef
    have hne := parseFloatM_ne_empty hq
    have hle : jsLe (parseFloatM a) 0 = false := by
      rw [hq]; simp [jsLe, not_le, hpos]
    rcases hdef with hdef | hdef
    · subst hdef
      simp [calculateAmountA, hne, hle]
    · simp [calculateAmountA, hne, hle, hdef]
  · intro h
    rcases h with h | ⟨hq, hle⟩
    · simp [calculateAmountA, h]
    · have : jsLe (parseFloatM a) 0 = true := by rw [hq]; simpa [jsLe]
      simp [calculateAmountA, this]

/-- Witness for C4 at concrete inputs. -/
theorem calculateAmount_default_witness :
    calculateAmountB ⟨"0xaa", 18, false⟩ ⟨"0xbb", 18, false⟩ none "3" = .echo "3" ∧
    calculateAmountB ⟨"0xaa", 18, false⟩ ⟨"0xbb", 18, false⟩ (some ⟨"2", "6"⟩) "" = .empty ∧
    calculateAmountA ⟨"0xaa", 18, false⟩ ⟨"0xbb", 18, false⟩ none "3" = .echo "3" ∧
    calculateAmountA ⟨"0xaa", 18, false⟩ ⟨"0xbb", 18, false⟩ (some ⟨"2", "6"⟩) "-1" = .empty := by
  have h3 : parseFloatM "3" = some 3 := by with_unfolding_all decide
  have hm : parseFloatM "-1" = some (-1) := by with_unfolding_all decide
  have h := calculateAmount_default ⟨"0xaa", 18, false⟩ ⟨"0xbb", 18, false⟩
  refine ⟨(h none "3" 3).1 h3 (by norm_num) (Or.inl rfl),
    (h (some ⟨"2", "6"⟩) "" 0).2.1 (Or.inl rfl),
    (h none "3" 3).2.2.1 h3 (by norm_num) (Or.inl rfl),
    (h (some ⟨"2", "6"⟩) "-1" (-1)).2.2.2 (Or.inr ⟨hm, by norm_num⟩)⟩

theorem displayCascade_eq (v : Rat) :
    (if jsLt (some v) (1 / 1000000) then DisplayAmount.exponential 4 (some v)
     else if jsLt (some v) 1 then DisplayAmount.fixed 8 (some v)
     else if jsLt (some v) 1000 then DisplayAmount.fixed 6 (some v)
     else DisplayAmount.fixed 4 (some v)) = displaySpec v := by
  simp only [jsLt, displaySpec, decide_eq_true_eq]

/-! ## Claim C1 -/

/-- C1: with an existing pool and both reserves positive the calculators
are bidirectional and ratio preserving: calculateAmountB renders
amountA * (reserveB / reserveA) and calculateAmountA renders
amountB * (reserveA / reserveB), through the display-precision rounding
of displaySpec, for any inputs parsing to positive numbers. -/
theorem calculateAmount_ratio :
    ∀ (tA tB : Token) (r : PoolReserves) (a b : String) (qa qb : Rat),
      0 < reserveANum tA tB (some r) → 0 < reserveBNum tA tB (some r) →
      parseFloatM a = some qa → 0 < qa →
      parseFloatM b = some qb → 0 < qb →
      calculateAmountB tA tB (some r) a =
        displaySpec (qa * (reserveBNum tA tB (some r) / reserveANum tA tB (some r))) ∧
      calculateAmountA tA tB (some r) b =
        displaySpec (qb * (reserveANum tA tB (some r) / reserveBNum tA tB (some r))) := by
  intro tA tB r a b qa qb hA hB hqa hqapos hqb hqbpos
  constructor
  · have hne := parseFloatM_ne_empty hqa
    have hle : jsLe (some qa) 0 = false := by simp [jsLe, not_le, hqapos]
    have hAne : reserveANum tA tB (some r) ≠ 0 := ne_of_gt hA
    have hratio : ratioOf tA tB (some r) =
        reserveBNum tA tB (some r) / reserveANum tA tB (some r) := by
      simp [ratioOf, hA]
    have hc1 : ¬(a = "" ∨ jsLe (some qa) 0 = true) := by
      rintro (h | h)
      · exact hne h
      · rw [hle] at h; exact Bool.false_ne_true h
    have hc2 : ¬(Option.isNone (some r) = true ∨ reserveANum tA tB (some r) = 0) := by
      rintro (h | h)
      · simp at h
      · exact hAne h
    simp only [calculateAmountB, hqa]
    rw [if_neg hc1, if_neg hc2, hratio]
    simp only [Option.map_some']
    exact displayCascade_eq _
  · have hne := parseFloatM_ne_empty hqb
    have hle : jsLe (some qb) 0 = false := by simp [jsLe, not_le, hqbpos]
    have hBne : reserveBNum tA tB (some r) ≠ 0 := ne_of_gt hB
    have hratio : reverseRatioOf tA tB (some r) =
        reserveANum tA tB (some r) / reserveBNum tA tB (some r) := by
      simp [reverseRatioOf, hB]
    have hc1 : ¬(b = "" ∨ jsLe (some qb) 0 = true) := by
      rintro (h | h)
      · exact hne h
      · rw [hle] at h; exact Bool.false_ne_true h
    have hc2 : ¬(Option.isNone (some r) = true ∨ reserveBNum tA tB (some r) = 0) := by
      rintro (h | h)
      · simp at h
      · exact hBne h
    simp only [calculateAmountA, hqb]
    rw [if_neg hc1, if_neg hc2, hratio]
    simp only [Option.map_some']
    exact displayCascade_eq _

/-- Witness for C1 at concrete inputs. -/
theorem calculateAmount_ratio_witness :
    calculateAmountB ⟨"0xaa", 18, false⟩ ⟨"0xbb", 18, false⟩ (some ⟨"2", "6"⟩) "3" =
      displaySpec (3 * ((6 : Rat) / 2)) ∧
    calculateAmountA ⟨"0xaa", 18, false⟩ ⟨"0xbb", 18, false⟩ (some ⟨"2", "6"⟩) "3" =
      displaySpec (3 * ((2 : Rat) / 6)) := by
  have hA : reserveANum ⟨"0xaa", 18, false⟩ ⟨"0xbb", 18, false⟩ (some ⟨"2", "6"⟩) = 2 := by
    with_unfolding_all decide
  have hB : reserveBNum ⟨"0xaa", 18, false⟩ ⟨"0xbb", 18, false⟩ (some ⟨"2", "6"⟩) = 6 := by
    with_unfolding_all decide
  have h3 : parseFloatM "3" = some 3 := by with_unfolding_all decide
  have h := calculateAmount_ratio ⟨"0xaa", 18, false⟩ ⟨"0xbb", 18, false⟩ ⟨"2", "6"⟩
    "3" "3" 3 3 (by rw [hA]; norm_num) (by rw [hB]; norm_num) h3 (by norm_num)
    h3 (by norm_num)
  rw [hA, hB] at h
  exact h

/-! ## Claim C2 -/

/-- C2: with the default bound of 3 retries, stake and unstake make at
most 3 submission attempts; the backoff waits they perform are 3000 ms
doubling after each retryable failure (3000, 6000, 12000); a wait occurs
exactly after each attempt that threw a dropped / replaced / nonce error;
and an attempt failing with any other error ends the loop at once with a
failure result carrying that error. -/
theorem stake_unstake_retry_policy :
    ∀ (ctx : StakeCtx) (connected : Bool) (amount : String)
      (envs : Nat → AttemptEnv) (outs : Nat → SendOutcome) (run : StakeRun),
      stake ctx 3 envs outs = .ok run ∨
        unstake connected amount 3 envs outs = .ok run →
      run.requests.length ≤ 3 ∧
      run.waits = (List.range run.waits.length).map (fun i => 3000 * 2 ^ i) ∧
      (run.requests ≠ [] →
        run.waits.length =
          (List.range run.requests.length).countP (fun i => isRetryThrow (outs i))) ∧
      (∀ k msg, run.requests ≠ [] → k < 3 → outs k = .threw msg →
        retryableError msg = false →
        (∀ j, j < k → continuesOutcome (outs j) = true) →
        run.result = ⟨false, none, some msg⟩ ∧ run.requests.length = k + 1) := by
  intro ctx connected amount envs outs run h
  have hcases : (run.requests = [] ∧ run.waits = [] ∧ run.result.success = false) ∨
      run = stakeAttemptLoop envs outs 3 0 3000 "" := by
    rcases h with h | h
    · exact stake_run_cases _ _ _ _ _ h
    · exact unstake_run_cases _ _ _ _ _ _ h
  rcases hcases with ⟨hreq, hwaits, _⟩ | hrun
  · exact ⟨by simp [hreq], by simp [hwaits], fun hne => absurd hreq hne,
      fun k msg hne _ _ _ _ => absurd hreq hne⟩
  · subst hrun
    refine ⟨stakeAttemptLoop_length_le envs outs 3 0 3000 "",
      stakeAttemptLoop_waits envs outs 3 0 3000 "", ?_, ?_⟩
    · intro _
      rw [stakeAttemptLoop_waits_count envs outs 3 0 3000 ""]
      exact List.countP_congr fun a _ => by rw [Nat.zero_add]
    · intro k msg _ hk hout hnr hcont
      refine stakeAttemptLoop_nonretry envs outs k 3 0 3000 "" msg hk ?_ hnr ?_
      · rwa [Nat.zero_add]
      · intro j hj
        rw [Nat.zero_add]
        exact hcont j hj

/-- Witness for C2 at concrete inputs: a single attempt rejected with a
non-retryable message ends the run immediately. -/
theorem stake_unstake_retry_policy_witness :
    (⟨⟨false, none, some "execution reverted"⟩, [⟨10, 180000, 65⟩], []⟩ :
      StakeRun).requests.length ≤ 3 ∧
    (⟨⟨false, none, some "execution reverted"⟩, [⟨10, 180000, 65⟩], []⟩ :
      StakeRun).result = ⟨false, none, some "execution reverted"⟩ := by
  have h : stake ⟨true, "1", true, true, none, some (2 * 10 ^ 18), some (3 * 10 ^ 18)⟩
      3 (fun i => ⟨10 + i, some 100000, 50⟩) (fun _ => .threw "execution reverted") =
      .ok ⟨⟨false, none, some "execution reverted"⟩, [⟨10, 180000, 65⟩], []⟩ := by
    simp [stake, show parseFloatM "1" = some 1 from by with_unfolding_all decide,
      show jsLe (some (1 : Rat)) 0 = false from by with_unfolding_all decide,
      show parseUnits "1" 18 = some ((10 : Int) ^ 18) from by decide,
      show balanceBlocks (some 2000000000000000000) 1000000000000000000 = false from by
        decide,
      show allowanceBlocks (some 3000000000000000000) 1000000000000000000 = false from by
        decide,
      stakeAttemptLoop, show retryableError "execution reverted" = false from by decide,
      mkRequest, estimateGasWithBuffer]
  have hp := stake_unstake_retry_policy _ true "" _ _ _ (Or.inl h)
  refine ⟨hp.1, ?_⟩
  exact (hp.2.2.2 0 "execution reverted" (by simp) (by omega) rfl
    (by decide) (fun j hj => absurd hj (by omega))).1

/-! ## Claim C6 -/

/-- C6: every submission attempt of stake and unstake uses the pending
nonce fetched for that attempt, a gas limit of estimated gas times 180
over 100 (500000 exactly when estimation throws) and a gas price of the
current gas price times 130 over 100. -/
theorem stake_unstake_tx_parameters :
    ∀ (ctx : StakeCtx) (connected : Bool) (amount : String)
      (envs : Nat → AttemptEnv) (outs : Nat → SendOutcome) (run : StakeRun),
      stake ctx 3 envs outs = .ok run ∨
        unstake connected amount 3 envs outs = .ok run →
      run.requests = (List.range run.requests.length).map (fun i =>
        { nonce := (envs i).pendingNonce
          gas := match (envs i).gasEstimate with
            | some estimated => estimated * 180 / 100
            | none => 500000
          gasPrice := (envs i).gasPrice * 130 / 100 : TxRequest }) := by
  intro ctx connected amount envs outs run h
  have hcases : (run.requests = [] ∧ run.waits = [] ∧ run.result.success = false) ∨
      run = stakeAttemptLoop envs outs 3 0 3000 "" := by
    rcases h with h | h
    · exact stake_run_cases _ _ _ _ _ h
    · exact unstake_run_cases _ _ _ _ _ _ h
  have hshape : ∀ env : AttemptEnv, mkRequest env =
      { nonce := env.pendingNonce
        gas := match env.gasEstimate with
          | some estimated => estimated * 180 / 100
          | none => 500000
        gasPrice := env.gasPrice * 130 / 100 : TxRequest } := by
    intro env
    cases henv : env.gasEstimate <;>
      simp [mkRequest, estimateGasWithBuffer, henv]
  rcases hcases with ⟨hreq, _, _⟩ | hrun
  · simp [hreq]
  · subst hrun
    conv_lhs => rw [stakeAttemptLoop_requests envs outs 3 0 3000 ""]
    exact List.map_congr_left fun a _ => by rw [Nat.zero_add, hshape]

/-- Witness for C6 at concrete inputs, one attempt with a successful gas
estimate and one with a failed estimate. -/
theorem stake_unstake_tx_parameters_witness :
    (⟨⟨true, some "0xh", none⟩, [⟨7, 1800, 65⟩], []⟩ : StakeRun).requests =
      [⟨7, 1000 * 180 / 100, 50 * 130 / 100⟩] ∧
    (⟨⟨true, some "0xh", none⟩, [⟨9, 500000, 130⟩], []⟩ : StakeRun).requests =
      [⟨9, 500000, 100 * 130 / 100⟩] := by
  have hfacts := And.intro (show parseFloatM "2" = some 2 from by with_unfolding_all decide)
    (show jsLe (some (2 : Rat)) 0 = false from by with_unfolding_all decide)
  have h1 : unstake true "2" 3 (fun i => ⟨7 + i, some 1000, 50⟩)
      (fun _ => .confirmed "0xh") = .ok ⟨⟨true, some "0xh", none⟩, [⟨7, 1800, 65⟩], []⟩ := by
    simp [unstake, hfacts.1, hfacts.2,
      show parseUnits "2" 18 = some (2 * (10 : Int) ^ 18) from by decide,
      stakeAttemptLoop, mkRequest, estimateGasWithBuffer]
  have h2 : unstake true "2" 3 (fun i => ⟨9 + i, none, 100⟩)
      (fun _ => .confirmed "0xh") = .ok ⟨⟨true, some "0xh", none⟩, [⟨9, 500000, 130⟩], []⟩ := by
    simp [unstake, hfacts.1, hfacts.2,
      show parseUnits "2" 18 = some (2 * (10 : Int) ^ 18) from by decide,
      stakeAttemptLoop, mkRequest, estimateGasWithBuffer]
  constructor
  · have := stake_unstake_tx_parameters ⟨true, "", true, true, none, none, none⟩
      true "2" _ _ _ (Or.inr h1)
    simpa using this
  · have := stake_unstake_tx_parameters ⟨true, "", true, true, none, none, none⟩
      true "2" _ _ _ (Or.inr h2)
    simpa using this

/-! ## Claim C7 -/

/-- C7 counterexample: the claim says a LP balance below the requested
amount blocks submission, but a fetched balance of exactly 0n is falsy in
the source guard (lpBalance and amountWei > lpBalance), so with balance 0
(less than the amount) and a sufficient allowance, stake submits and
succeeds: one request is made and a hash is produced. -/
theorem stake_balance_gate_counterexample :
    parseUnits "1" 18 = some 1000000000000000000 ∧
    (((some 0 : Option Nat).getD 0 : Int) < 1000000000000000000) ∧
    stake ⟨true, "1", true, true, none, some 0, some (10 ^ 18)⟩ 3
      (fun _ => ⟨5, some 100000, 10⟩) (fun _ => .confirmed "0xabc") =
      .ok ⟨⟨true, some "0xabc", none⟩, [⟨5, 180000, 13⟩], []⟩ := by
  refine ⟨by decide, by decide, ?_⟩
  simp [stake, show parseFloatM "1" = some 1 from by with_unfolding_all decide,
    show jsLe (some (1 : Rat)) 0 = false from by with_unfolding_all decide,
    show parseUnits "1" 18 = some ((10 : Int) ^ 18) from by decide,
    show balanceBlocks (some 0) 1000000000000000000 = false from by decide,
    show allowanceBlocks (some 1000000000000000000) 1000000000000000000 = false from by
      decide,
    stakeAttemptLoop, mkRequest, estimateGasWithBuffer]

/-- C7 amended: with the wallet connected, a valid positive amount and the
pool verified, stake returns a failure and submits nothing when the
fetched LP balance is truthy (nonzero) and below the amount, or when the
allowance is unfetched, zero, or below the amount; the balance error takes
precedence. -/
theorem stake_guards_block_submission :
    ∀ (ctx : StakeCtx) (retries : Nat) (envs : Nat → AttemptEnv)
      (outs : Nat → SendOutcome) (w : Int) (run : StakeRun),
      ctx.connected = true →
      ¬(ctx.amount = "" ∨ jsLe (parseFloatM ctx.amount) 0 = true) →
      (ctx.poolVerified = true ∨ ctx.verifySucceeds = true) →
      parseUnits ctx.amount 18 = some w →
      (balanceBlocks ctx.lpBalance w = true ∨ allowanceBlocks ctx.allowance w = true) →
      stake ctx retries envs outs = .ok run →
      run.requests = [] ∧
      run.result = ⟨false, none,
        some (if balanceBlocks ctx.lpBalance w then "Insufficient LP balance"
          else "Please approve LP tokens first")⟩ := by
  intro ctx retries envs outs w run hconn hamount hpool hpu hblock h
  unfold stake at h
  rw [if_neg (by simp [hconn])] at h
  rw [if_neg hamount] at h
  rw [if_neg (by rcases hpool with hp | hp <;> simp [hp])] at h
  rw [hpu] at h
  dsimp only at h
  by_cases hb : balanceBlocks ctx.lpBalance w = true
  · rw [if_pos hb] at h
    injection h with hr
    subst hr
    simp [hb]
  · rcases hblock with hbb | ha
    · exact absurd hbb hb
    · rw [Bool.not_eq_true] at hb
      rw [if_neg (by simp [hb]), if_pos ha] at h
      injection h with hr
      subst hr
      simp [hb]

/-- Witness for the amended C7 at concrete inputs: no allowance fetched,
so stake fails with the approval message and makes no request. -/
theorem stake_guards_block_submission_witness :
    (⟨⟨false, none, some "Please approve LP tokens first"⟩, [], []⟩ :
      StakeRun).requests = [] ∧
    (⟨⟨false, none, some "Please approve LP tokens first"⟩, [], []⟩ :
      StakeRun).result = ⟨false, none, some "Please approve LP tokens first"⟩ := by
  have h : stake ⟨true, "1", true, true, none, none, none⟩ 3
      (fun _ => ⟨5, some 100000, 10⟩) (fun _ => .confirmed "0xabc") =
      .ok ⟨⟨false, none, some "Please approve LP tokens first"⟩, [], []⟩ := by
    simp [stake, show parseFloatM "1" = some 1 from by with_unfolding_all decide,
      show jsLe (some (1 : Rat)) 0 = false from by with_unfolding_all decide,
      show parseUnits "1" 18 = some ((10 : Int) ^ 18) from by decide,
      balanceBlocks, allowanceBlocks]
  have hp := stake_guards_block_submission ⟨true, "1", true, true, none, none, none⟩
    3 _ _ (10 ^ 18) _ rfl
    (by rw [show parseFloatM "1" = some 1 from by with_unfolding_all decide]
        simp [jsLe])
    (Or.inl rfl) (by decide) (Or.inr rfl) h
  simpa using hp


/-! ## Claim C9 -/

/-- C9: for any slippage s between 0 and 100, every minimum-output amount
passed to the router by add-liquidity and remove-liquidity equals the
floor of amount * (100 - s) / 100 in integer arithmetic, and is at most
the corresponding desired amount. -/
theorem liquidity_slippage_mins :
    (∀ (tA tB : Token) (slippage : Nat) (connected : Bool)
      (userAddress amountA amountB : String) (nowMs : Nat) (gE : Option Nat)
      (call : RouterCall),
      slippage ≤ 100 →
      addLiquidity tA tB slippage connected userAddress amountA amountB nowMs
        gE = .ok call →
      ∀ p ∈ call.args.minPairs,
        p.1 = p.2 * (100 - (slippage : Int)) / 100 ∧ p.1 ≤ p.2) ∧
    (∀ (slippage : Nat) (connected : Bool) (userAddress : String) (lpAmount : Int)
      (t0 t1 : String) (m0 m1 : Int) (hasWMON : Bool) (nowMs : Nat)
      (gE : Option Nat) (call : RouterCall),
      slippage ≤ 100 → 0 ≤ m0 → 0 ≤ m1 →
      removeLiquidity slippage connected userAddress lpAmount t0 t1 m0 m1
        hasWMON nowMs gE = .ok call →
      (call.args.routerMins = [m0 * (100 - (slippage : Int)) / 100,
          m1 * (100 - (slippage : Int)) / 100] ∨
        call.args.routerMins = [m1 * (100 - (slippage : Int)) / 100,
          m0 * (100 - (slippage : Int)) / 100]) ∧
      m0 * (100 - (slippage : Int)) / 100 ≤ m0 ∧
      m1 * (100 - (slippage : Int)) / 100 ≤ m1) := by
  constructor
  · intro tA tB s conn ua a b now gE call hs h
    unfold addLiquidity at h
    split at h
    · cases h
    · split at h
      · cases h
      · rename_i hguard
        push_neg at hguard
        obtain ⟨-, -, hga0, hgb0⟩ := hguard
        have hga := Bool.eq_false_iff.mpr hga0
        have hgb := Bool.eq_false_iff.mpr hgb0
        split at h
        · cases h
        · rename_i aWei hA
          split at h
          · cases h
          · rename_i bWei hB
            have h0a : 0 ≤ aWei := parseUnits_nonneg a tA.decimals aWei hA hga
            have h0b : 0 ≤ bWei := parseUnits_nonneg b tB.decimals bWei hB hgb
            dsimp only at h
            split at h
            · injection h with hc
              subst hc
              intro p hp
              simp only [RouterArgs.minPairs, List.mem_cons,
                List.not_mem_nil, or_false] at hp
              have hta : 0 ≤ (if (tA.address = NATIVE_ADDRESS ∨ tA.isNative : Bool) = true
                  then bWei else aWei) := by
                split <;> assumption
              have hna : 0 ≤ (if (tA.address = NATIVE_ADDRESS ∨ tA.isNative : Bool) = true
                  then aWei else bWei) := by
                split <;> assumption
              rcases hp with rfl | rfl
              · obtain ⟨he, hle⟩ := slippage_min _ s hta hs
                exact ⟨he, he.trans_le hle⟩
              · obtain ⟨he, hle⟩ := slippage_min _ s hna hs
                exact ⟨he, he.trans_le hle⟩
            · injection h with hc
              subst hc
              intro p hp
              simp only [RouterArgs.minPairs, List.mem_cons,
                List.not_mem_nil, or_false] at hp
              rcases hp with rfl | rfl
              · obtain ⟨he, hle⟩ := slippage_min _ s h0a hs
                exact ⟨he, he.trans_le hle⟩
              · obtain ⟨he, hle⟩ := slippage_min _ s h0b hs
                exact ⟨he, he.trans_le hle⟩
  · intro s conn ua lp t0 t1 m0 m1 hasW now gE call hs h0 h1 h
    unfold removeLiquidity at h
    split at h
    · cases h
    · split at h
      · cases h
      · obtain ⟨he0, hle0⟩ := slippage_min m0 s h0 hs
        obtain ⟨he1, hle1⟩ := slippage_min m1 s h1 hs
        split at h
        · injection h with hc
          subst hc
          by_cases hW : jsToLowerCase t0 = jsToLowerCase WMON
          · exact ⟨Or.inr (by simp [RouterArgs.routerMins, hW, he0, he1]),
              hle0, hle1⟩
          · exact ⟨Or.inl (by simp [RouterArgs.routerMins, hW, he0, he1]),
              hle0, hle1⟩
        · injection h with hc
          subst hc
          exact ⟨Or.inl (by simp [RouterArgs.routerMins, he0, he1]),
            hle0, hle1⟩

set_option maxRecDepth 2000 in
/-- Witness for C9 at concrete inputs (default slippage of 10 percent). -/
theorem liquidity_slippage_mins_witness :
    (∀ p ∈ (RouterArgs.addLiquidityERC20 "0xaa" "0xbb" 100 200 90 180 "0xme"
        1205).minPairs, p.1 = p.2 * (100 - (10 : Int)) / 100 ∧ p.1 ≤ p.2) ∧
    ((RouterArgs.removeLiquidityERC20 "0xaa" "0xbb" 5 90 180 "0xme"
        1205).routerMins = [(100 : Int) * (100 - 10) / 100, 200 * (100 - 10) / 100] ∨
      (RouterArgs.removeLiquidityERC20 "0xaa" "0xbb" 5 90 180 "0xme"
        1205).routerMins = [(200 : Int) * (100 - 10) / 100, 100 * (100 - 10) / 100]) := by
  have hadd : addLiquidity ⟨"0xaa", 2, false⟩ ⟨"0xbb", 2, false⟩ 10 true "0xme" "1"
      "2" 5123 none =
      .ok ⟨.addLiquidityERC20 "0xaa" "0xbb" 100 200 90 180 "0xme" 1205, none⟩ := by
    with_unfolding_all decide
  have hrem : removeLiquidity 10 true "0xme" 5 "0xaa" "0xbb" 100 200 false 5123 none =
      .ok ⟨.removeLiquidityERC20 "0xaa" "0xbb" 5 90 180 "0xme" 1205, none⟩ := by
    with_unfolding_all decide
  constructor
  · exact liquidity_slippage_mins.1 _ _ 10 true "0xme" "1" "2" 5123 none _
      (by norm_num) hadd
  · exact (liquidity_slippage_mins.2 10 true "0xme" 5 "0xaa" "0xbb" 100 200 false
      5123 none _ (by norm_num) (by norm_num) (by norm_num) hrem).1

end QC
